import Mathlib

/-!
Verification development for the chatty companion-bot repository.

We give a shallow embedding of the core pipeline: the memory store built on a
vector database (src/memory.py), the inactivity-driven proactive scheduler
(src/scheduler.py), the tool-calling completion loop and fact extraction
(src/llm.py, src/tools/base.py) and the message handler / context assembler
(src/bot.py, src/discord_bot.py).

Modelling conventions:
- A stored chat message carries a role, a content string and a timestamp.
  The source stores timestamps as ISO-8601 strings and sorts them
  lexicographically; ISO-8601 order coincides with instant order, so we model
  timestamps as naturals.
- The vector-store collection is modelled as the list of its points in the
  order the scroll API yields them.  The scroll call of the source passes a
  page limit and ignores the returned continuation offset, so it observes
  exactly a prefix of that list; the list order itself is arbitrary (point
  ids are random UUIDs).
- External capabilities (the completion backend, JSON decoding, the outbound
  transport) are passed in as oracle arguments; a fallible call is an
  Except or Option value.
-/

namespace Chatty

/-- A chat message as stored in the chat-history collection payload. -/
structure Msg where
  role : String
  content : String
  timestamp : Nat
deriving DecidableEq, Repr

/-! ### Memory store (src/memory.py) -/

/-- Embedding of MemoryManager.get_recent_history.  The source scrolls the
chat-history collection with page limit 2 times the requested limit, sorts the
returned page by timestamp descending (stably), keeps the first limit entries
and reverses them to chronological order.  The store argument is the
collection in scroll order. -/
def get_recent_history (store : List Msg) (lim : Nat) : List Msg :=
  let results := store.take (lim * 2)
  let sorted := results.insertionSort (fun a b => b.timestamp ≤ a.timestamp)
  ((sorted.take lim).reverse)

/-- Embedding of MemoryManager.get_last_user_message_time.  The source scrolls
the collection filtered to role user with page limit 100, returns none when
the page is empty and otherwise the maximum timestamp on the page. -/
def get_last_user_message_time (store : List Msg) : Option Nat :=
  let results := (store.filter (fun m => m.role = "user")).take 100
  if results.isEmpty then none
  else (results.map (fun m => m.timestamp)).max?

/-! ### Proactive scheduler (src/scheduler.py) -/

/-- Threshold of user inactivity, in hours, before a proactive message is
considered (INACTIVITY_THRESHOLD_HOURS). -/
def INACTIVITY_THRESHOLD_HOURS : Int := 24

/-- Embedding of one tick of ProactiveScheduler._check_and_send_proactive
followed by _send_proactive_message.  Instants are hours as integers.
lastUser is the stored last-user-message time, lastProactive the mutable
field _last_proactive_message, and sendOutcome the result of the attempt:
some true when bot.send_proactive_message confirms delivery, some false when
it returns failure, none when generation or sending raises (the exception is
caught and logged).  Returns whether a message was confirmedly sent together
with the new _last_proactive_message value. -/
def scheduler_tick (lastUser : Option Int) (lastProactive : Option Int)
    (now : Int) (sendOutcome : Option Bool) : Bool × Option Int :=
  match lastUser with
  | none => (false, lastProactive)
  | some lu =>
    if now - lu < INACTIVITY_THRESHOLD_HOURS then (false, lastProactive)
    else
      match lastProactive with
      | some lp =>
        if now - lp < INACTIVITY_THRESHOLD_HOURS then (false, lastProactive)
        else match sendOutcome with
          | some true => (true, some now)
          | _ => (false, lastProactive)
      | none => match sendOutcome with
          | some true => (true, some now)
          | _ => (false, lastProactive)

/-! ### Tool registry and executor (src/tools/base.py) -/

/-- Arguments of a tool call as delivered by the backend: either already a
mapping or a raw JSON string (both occur depending on the Ollama version).
Argument values are opaque to the core, so they are modelled as strings. -/
inductive RawArgs where
  | dict : List (String × String) → RawArgs
  | str : String → RawArgs
deriving DecidableEq, Repr

/-- Result of decoding a JSON string: a mapping, or some other JSON value
(whose shape the core never inspects, hence opaque). -/
inductive PyVal where
  | dict : List (String × String) → PyVal
  | nondict : String → PyVal
deriving DecidableEq, Repr

/-- A tool invocation request from the model. -/
structure FuncCall where
  name : String
  arguments : RawArgs
deriving DecidableEq, Repr

/-- A model response: optional text content plus requested tool calls. -/
structure ModelResp where
  content : Option String
  tool_calls : List FuncCall
deriving DecidableEq, Repr

/-- One entry of the running transcript.  Assistant entries that request
tools also carry the requested calls. -/
structure ChatMsg where
  role : String
  content : String
  tool_calls : List FuncCall := []
deriving DecidableEq, Repr

/-- A tool implementation: from keyword arguments to either a result string
or a raised exception message (Tool.execute in src/tools/base.py). -/
def ToolImpl := List (String × String) → Except String String

/-- Embedding of ToolRegistry lookup (self.get taken over the name map). -/
def lookupTool (reg : List (String × ToolImpl)) (n : String) : Option ToolImpl :=
  (reg.find? (fun p => p.1 = n)).map (fun p => p.2)

/-- A single-quote character as a string, used by the error texts of the
executor (the source builds them with f-strings quoting the tool name). -/
def sq : String := String.singleton (Char.ofNat 39)

namespace ToolExecutor

/-- Embedding of ToolExecutor.execute.  Unknown names become an in-band
error text; exceptions from a known tool are caught and converted to an
error text; passing a non-mapping as arguments makes the keyword expansion
raise, which is caught by the same handler. -/
def execute (reg : List (String × ToolImpl)) (tool_name : String)
    (arguments : PyVal) : String :=
  match lookupTool reg tool_name with
  | none => "Error: " ++ ("Unknown tool: " ++ tool_name)
  | some tool =>
    match arguments with
    | .dict kwargs =>
      match tool kwargs with
      | .ok result => result
      | .error e =>
          "Error: " ++ ("Tool " ++ sq ++ tool_name ++ sq ++ " failed: " ++ e)
    | .nondict _ =>
        "Error: " ++ ("Tool " ++ sq ++ tool_name ++ sq ++ " failed: "
          ++ "argument after ** must be a mapping")

end ToolExecutor

/-! ### Tool-calling loop (src/llm.py, LLMClient) -/

/-- Bound on completion iterations (MAX_TOOL_ITERATIONS in src/llm.py). -/
def MAX_TOOL_ITERATIONS : Nat := 5

/-- Fallback text returned when the iteration bound is hit and the last
response has no usable text. -/
def FALLBACK_TEXT : String :=
  "I" ++ sq ++ "m having trouble processing that request."

/-- Python-style or on an optional string: None and the empty string are
falsy and give the fallback. -/
def contentOr (c : Option String) (fb : String) : String :=
  match c with
  | some s => if s = "" then fb else s
  | none => fb

/-- Embedding of the argument normalisation in the loop body: a mapping is
passed through, a string is JSON-decoded, and a decode failure is replaced
by the empty mapping.  The jsonLoads oracle models json.loads, with none for
a JSONDecodeError. -/
def decodeArguments (jsonLoads : String → Option PyVal) : RawArgs → PyVal
  | .dict d => .dict d
  | .str s =>
    match jsonLoads s with
    | some v => v
    | none => .dict []

/-- The tool-result transcript entries appended for one batch of requested
tool calls: one role-tool entry per call, holding the executor result. -/
def toolResultMsgs (reg : List (String × ToolImpl))
    (jsonLoads : String → Option PyVal) (tcs : List FuncCall) : List ChatMsg :=
  tcs.map (fun tc =>
    ⟨"tool", ToolExecutor.execute reg tc.name (decodeArguments jsonLoads tc.arguments), []⟩)

/-- Outcome of the tool-calling loop: the returned text (the source returns
the raw optional content on a tool-free response), the number of completion
calls issued, and the final transcript. -/
structure LoopOut where
  text : Option String
  calls : Nat
  transcript : List ChatMsg
deriving DecidableEq, Repr

/-- Embedding of the while loop of LLMClient._generate_with_tools.  The
oracle gives the backend response to the i-th completion call; fuel is the
number of remaining iterations (MAX_TOOL_ITERATIONS minus the iteration
counter), calls the number of completion calls so far (which is also the
oracle index of the next call), and last the response of the previous
iteration.  When fuel runs out the source returns the last response content,
falling back to FALLBACK_TEXT when it is missing or empty; at the top-level
entry point fuel is positive, so last is always present at exhaustion. -/
def generateWithToolsAux (oracle : Nat → ModelResp) (reg : List (String × ToolImpl))
    (jsonLoads : String → Option PyVal) :
    Nat → Nat → List ChatMsg → Option ModelResp → LoopOut
  | 0, calls, msgs, last =>
      ⟨some (contentOr (last.bind (fun r => r.content)) FALLBACK_TEXT), calls, msgs⟩
  | fuel + 1, calls, msgs, _ =>
      let response := oracle calls
      if response.tool_calls.isEmpty then
        ⟨response.content, calls + 1, msgs⟩
      else
        let amsg : ChatMsg := ⟨"assistant", contentOr response.content "", response.tool_calls⟩
        generateWithToolsAux oracle reg jsonLoads fuel (calls + 1)
          (msgs ++ (amsg :: toolResultMsgs reg jsonLoads response.tool_calls)) (some response)

/-- Embedding of LLMClient._generate_with_tools from the initial message
list. -/
def generate_with_tools (oracle : Nat → ModelResp) (reg : List (String × ToolImpl))
    (jsonLoads : String → Option PyVal) (messages : List ChatMsg) : LoopOut :=
  generateWithToolsAux oracle reg jsonLoads MAX_TOOL_ITERATIONS 0 messages none

/-! ### Fact extraction (src/llm.py, LLMClient.extract_facts)

The parser uses the Python string primitives strip, split on newline,
startswith and slicing.  We model them over the character list of the
string (structurally, so that concrete inputs evaluate); Python strips
ASCII whitespace, modelled here by the usual four whitespace characters. -/

/-- Whitespace as removed by the strip of the source. -/
def isPySpace (c : Char) : Bool :=
  c = ' ' ∨ c = '\t' ∨ c = '\n' ∨ c = '\r'

/-- Model of the str.strip method: remove whitespace from both ends. -/
def pyStrip (s : String) : String :=
  String.mk (((s.data.dropWhile isPySpace).reverse.dropWhile isPySpace).reverse)

/-- Helper of pySplitLines, accumulating the current segment reversed. -/
def splitNlAux : List Char → List Char → List (List Char)
  | [], acc => [acc.reverse]
  | c :: cs, acc =>
    if c = '\n' then acc.reverse :: splitNlAux cs []
    else splitNlAux cs (c :: acc)

/-- Model of the split of the source on the newline separator. -/
def pySplitLines (s : String) : List String :=
  (splitNlAux s.data []).map String.mk

/-- Model of str.startswith. -/
def pyStartsWith (s p : String) : Bool :=
  p.data.isPrefixOf s.data

/-- Model of the slice s[n:]. -/
def pyDrop (s : String) (n : Nat) : String :=
  String.mk (s.data.drop n)

/-- The body of the parsing loop of extract_facts: strip the line, then strip
a leading marker, otherwise accept a non-empty line unless it starts with a
hash. -/
def factStep (facts : List String) (line : String) : List String :=
  let l := pyStrip line
  if pyStartsWith l "- " then facts ++ [pyDrop l 2]
  else if l ≠ "" ∧ ¬ (pyStartsWith l "#") then facts ++ [l]
  else facts

/-- Embedding of LLMClient.extract_facts, abstracted over the backend call:
error models a raised exception from the completion call (caught, empty
result), ok none models a response whose content field is missing (the strip
call then raises and the same handler returns the empty result), and
ok (some raw) is a successful textual response, which is stripped and
parsed line by line exactly as in the source, the loop body being
factStep. -/
def extract_facts (resp : Except String (Option String)) : List String :=
  match resp with
  | .error _ => []
  | .ok none => []
  | .ok (some raw) =>
    let content := pyStrip raw
    if content = "NONE" ∨ content = "" then []
    else (pySplitLines content).foldl factStep []

/-- One line of a fact response as accepted by the parser: marker lines are
stripped, other non-empty lines are taken whole unless they start with a
hash, which the source skips. -/
def acceptedFact (line : String) : Option String :=
  let l := pyStrip line
  if pyStartsWith l "- " then some (pyDrop l 2)
  else if l ≠ "" ∧ ¬ (pyStartsWith l "#") then some l
  else none

/-! ### Context assembler and message handler (src/bot.py, src/discord_bot.py) -/

/-- The identity key used for history deduplication.  The source builds the
string f-string of role and timestamp; roles never contain a colon, so the
pair is an equivalent key. -/
def msgKey (m : Msg) : String × Nat := (m.role, m.timestamp)

/-- Embedding of the dedup pass of handle_message: fold a result list into
the accumulator, keeping only messages whose key was not seen before (the
history_ids set holds exactly the keys of the accumulated list). -/
def dedupAppend (acc : List Msg) (ms : List Msg) : List Msg :=
  ms.foldl (fun a m =>
    if a.any (fun x => decide (msgKey x = msgKey m)) then a else a ++ [m]) acc

/-- Embedding of the history merge of handle_message: recent entries first,
then relevant entries, deduplicated by key, finally a stable sort ascending
by timestamp (list.sort in Python is stable, as is insertionSort). -/
def combined_history (recent relevant : List Msg) : List Msg :=
  List.insertionSort (fun a b => a.timestamp ≤ b.timestamp)
    (dedupAppend (dedupAppend [] recent) relevant)

/-- The two persistent stores visible to the handler: the chat-history
collection (in scroll order; new points are appended) and the facts
collection. -/
structure MemoryState where
  chat : List Msg
  facts : List String
deriving DecidableEq, Repr

/-- Fixed apology text sent when the try block of the handler fails. -/
def APOLOGY_TEXT : String := "Sorry, I had trouble processing that. Could you try again?"

/-- Embedding of ChattyBot.handle_message (the Discord variant in
src/discord_bot.py runs the identical pipeline after its own guards).  The
guards run first: a missing text and an unauthorized sender both return
without touching memory or the transport.  The generation oracle gen stands
for the whole guarded region up to the response (context reads, prompt
assembly with relevant facts, and the completion call): an error models an
exception caught by the top-level handler, which sends the fixed apology.
On success the user and assistant messages are appended to the store (with
fresh timestamps nowU and nowA), fact extraction runs best-effort through
extract_facts, and the response is sent.  Returns the memory state after the
turn and the list of outbound sends. -/
def handle_message (allowed_user_id sender_id : Int) (text : Option String)
    (mem : MemoryState) (relevantHistory : List Msg)
    (gen : List Msg → String → Except String String)
    (factsBackend : Except String (Option String))
    (nowU nowA : Nat) : MemoryState × List String :=
  match text with
  | none => (mem, [])
  | some user_message =>
    if sender_id ≠ allowed_user_id then (mem, [])
    else
      let recent := get_recent_history mem.chat 10
      let ctx := combined_history recent relevantHistory
      match gen ctx user_message with
      | .error _ => (mem, [APOLOGY_TEXT])
      | .ok response =>
        let mem1 : MemoryState := { mem with chat := mem.chat ++ [⟨"user", user_message, nowU⟩] }
        let mem2 : MemoryState := { mem1 with chat := mem1.chat ++ [⟨"assistant", response, nowA⟩] }
        let newFacts := extract_facts factsBackend
        let mem3 : MemoryState := { mem2 with facts := mem2.facts ++ newFacts }
        (mem3, [response])


/-! ### Concrete fixtures used by closed theorems and witnesses -/

/-- A store of 101 user messages with timestamps 0 to 100, listed in scroll
order; used to exhibit the page-size truncation of the last-user-time scan. -/
def store101 : List Msg := (List.range 101).map (fun i => ⟨"user", "m", i⟩)

/-- A model response that always requests one tool call. -/
def constToolResp : ModelResp := ⟨none, [⟨"t", RawArgs.dict []⟩]⟩

/-- A backend oracle answering every completion call with constToolResp. -/
def constToolOracle : Nat → ModelResp := fun _ => constToolResp

/-- A JSON decoder oracle on which every decode fails. -/
def noJson : String → Option PyVal := fun _ => none

/-- A registry with a single tool whose execution always raises. -/
def regEcho : List (String × ToolImpl) := [("boomtool", fun _ => Except.error "boom")]

/-- A registry with a single tool that succeeds on any arguments. -/
def regOk : List (String × ToolImpl) := [("mytool", fun _ => Except.ok "ran")]

/-- Totality of the timestamp comparison used by the context-assembler
sort. -/
instance : IsTotal Msg (fun a b => a.timestamp ≤ b.timestamp) :=
  ⟨fun a b => Nat.le_total a.timestamp b.timestamp⟩

/-- Transitivity of the timestamp comparison used by the context-assembler
sort. -/
instance : IsTrans Msg (fun a b => a.timestamp ≤ b.timestamp) :=
  ⟨fun _ _ _ => Nat.le_trans⟩

/-! ### Helper lemmas about the tool-calling loop -/

/-- The loop issues at most one completion call per unit of fuel. -/
theorem gca_calls_le (o : Nat → ModelResp) (reg : List (String × ToolImpl))
    (jl : String → Option PyVal) (fuel : Nat) :
    ∀ calls msgs last,
      (generateWithToolsAux o reg jl fuel calls msgs last).calls ≤ calls + fuel := by
  induction fuel with
  | zero => intro calls msgs last; simp [generateWithToolsAux]
  | succ n ih =>
    intro calls msgs last
    simp only [generateWithToolsAux]
    split
    · simp
    · exact Nat.le_trans (ih _ _ _) (by omega)

/-- One unfolding of the loop on an iteration whose response requests
tools: the assistant turn and one tool-result entry per requested call are
appended, and the loop continues. -/
theorem gca_step (o : Nat → ModelResp) (reg : List (String × ToolImpl))
    (jl : String → Option PyVal) (fuel calls : Nat) (msgs : List ChatMsg)
    (last : Option ModelResp) (h : (o calls).tool_calls ≠ []) :
    generateWithToolsAux o reg jl (fuel + 1) calls msgs last
      = generateWithToolsAux o reg jl fuel (calls + 1)
          (msgs ++ (⟨"assistant", contentOr (o calls).content "", (o calls).tool_calls⟩
            :: toolResultMsgs reg jl (o calls).tool_calls)) (some (o calls)) := by
  have hne : (o calls).tool_calls.isEmpty = false := by
    cases hc : (o calls).tool_calls with
    | nil => exact absurd hc h
    | cons a l => rfl
  simp [generateWithToolsAux, hne]

/-- When every response in reach requests tools, the loop burns all its fuel
and exits with the content of the final response, or the fallback text. -/
theorem gca_all_tools (o : Nat → ModelResp) (reg : List (String × ToolImpl))
    (jl : String → Option PyVal) (fuel : Nat) :
    ∀ calls msgs last,
      (∀ i, calls ≤ i → i < calls + (fuel + 1) → (o i).tool_calls ≠ []) →
      ∃ t, generateWithToolsAux o reg jl (fuel + 1) calls msgs last
        = ⟨some (contentOr (o (calls + fuel)).content FALLBACK_TEXT), calls + (fuel + 1), t⟩ := by
  induction fuel with
  | zero =>
    intro calls msgs last h
    have h0 : (o calls).tool_calls ≠ [] := h calls le_rfl (by omega)
    rw [gca_step o reg jl 0 calls msgs last h0]
    refine ⟨msgs ++ (⟨"assistant", contentOr (o calls).content "", (o calls).tool_calls⟩
      :: toolResultMsgs reg jl (o calls).tool_calls), ?_⟩
    simp [generateWithToolsAux]
  | succ n ih =>
    intro calls msgs last h
    have h0 : (o calls).tool_calls ≠ [] := h calls le_rfl (by omega)
    obtain ⟨t, ht⟩ := ih (calls + 1) (msgs ++
        (⟨"assistant", contentOr (o calls).content "", (o calls).tool_calls⟩
          :: toolResultMsgs reg jl (o calls).tool_calls)) (some (o calls))
      (fun i hi1 hi2 => h i (by omega) (by omega))
    refine ⟨t, ?_⟩
    rw [gca_step o reg jl (n + 1) calls msgs last h0, ht]
    have e1 : calls + 1 + n = calls + (n + 1) := by omega
    have e2 : calls + 1 + (n + 1) = calls + (n + 1 + 1) := by omega
    rw [e1, e2]

/-! ### Helper lemmas about the fact parser -/

/-- The loop body appends exactly the accepted content of the line. -/
theorem factStep_eq (facts : List String) (line : String) :
    factStep facts line = facts ++ (acceptedFact line).toList := by
  simp only [factStep, acceptedFact]
  split_ifs <;> simp

/-- The parsing fold collects the accepted content of every line. -/
theorem foldl_factStep (xs : List String) :
    ∀ acc, xs.foldl factStep acc = acc ++ xs.filterMap acceptedFact := by
  induction xs with
  | nil => intro acc; simp
  | cons x xs ih =>
    intro acc
    rw [List.foldl_cons, factStep_eq, ih, List.filterMap_cons]
    cases h : acceptedFact x <;> simp [h]

/-! ### Helper lemmas about the history merge -/

/-- The membership test of the dedup fold sees exactly the keys of the
accumulated list. -/
theorem keyMem_iff (a : List Msg) (m : Msg) :
    (a.any (fun x => decide (msgKey x = msgKey m))) = true ↔ msgKey m ∈ a.map msgKey := by
  simp [List.any_eq_true, List.mem_map]

/-- One step of the dedup fold. -/
theorem dedupAppend_cons (acc : List Msg) (m : Msg) (ms : List Msg) :
    dedupAppend acc (m :: ms)
      = dedupAppend (if (acc.any (fun x => decide (msgKey x = msgKey m))) = true
          then acc else acc ++ [m]) ms := by
  simp [dedupAppend]

/-- The dedup fold preserves distinctness of keys. -/
theorem dedupAppend_nodup_keys (ms : List Msg) :
    ∀ acc, (acc.map msgKey).Nodup → ((dedupAppend acc ms).map msgKey).Nodup := by
  induction ms with
  | nil => intro acc h; exact h
  | cons m ms ih =>
    intro acc h
    by_cases hk : (acc.any (fun x => decide (msgKey x = msgKey m))) = true
    · rw [dedupAppend_cons, if_pos hk]; exact ih acc h
    · rw [dedupAppend_cons, if_neg hk]
      apply ih
      rw [List.map_append]
      refine List.Nodup.append h (List.nodup_singleton _) ?_
      intro k hk1 hk2
      simp only [List.map_cons, List.map_nil, List.mem_singleton] at hk2
      subst hk2
      exact ((keyMem_iff acc m).not.1 hk) hk1

/-- The keys after the dedup fold are exactly the keys of the accumulator
and of the folded list. -/
theorem dedupAppend_keys_mem (ms : List Msg) :
    ∀ acc k, (k ∈ (dedupAppend acc ms).map msgKey
      ↔ k ∈ acc.map msgKey ∨ k ∈ ms.map msgKey) := by
  induction ms with
  | nil => intro acc k; simp [dedupAppend]
  | cons m ms ih =>
    intro acc k
    by_cases hk : (acc.any (fun x => decide (msgKey x = msgKey m))) = true
    · rw [dedupAppend_cons, if_pos hk, ih]
      have hmem : msgKey m ∈ acc.map msgKey := (keyMem_iff acc m).1 hk
      simp only [List.map_cons, List.mem_cons]
      constructor
      · rintro (h1 | h1)
        · exact Or.inl h1
        · exact Or.inr (Or.inr h1)
      · rintro (h1 | h1 | h1)
        · exact Or.inl h1
        · exact Or.inl (h1 ▸ hmem)
        · exact Or.inr h1
    · rw [dedupAppend_cons, if_neg hk, ih]
      simp only [List.map_append, List.mem_append, List.map_cons, List.map_nil,
        List.mem_singleton, List.mem_cons]
      tauto

/-- Provenance of the dedup fold output: every entry comes from the
accumulator, or from the folded list with a key that the accumulator does
not hold. -/
theorem dedupAppend_src (ms : List Msg) :
    ∀ acc x, x ∈ dedupAppend acc ms →
      x ∈ acc ∨ (x ∈ ms ∧ msgKey x ∉ acc.map msgKey) := by
  induction ms with
  | nil => intro acc x h; exact Or.inl h
  | cons m ms ih =>
    intro acc x h
    by_cases hk : (acc.any (fun x => decide (msgKey x = msgKey m))) = true
    · rw [dedupAppend_cons, if_pos hk] at h
      rcases ih acc x h with h1 | ⟨h1, h2⟩
      · exact Or.inl h1
      · exact Or.inr ⟨List.mem_cons_of_mem _ h1, h2⟩
    · rw [dedupAppend_cons, if_neg hk] at h
      rcases ih (acc ++ [m]) x h with h1 | ⟨h1, h2⟩
      · rcases List.mem_append.1 h1 with h1 | h1
        · exact Or.inl h1
        · simp only [List.mem_singleton] at h1
          subst h1
          exact Or.inr ⟨List.mem_cons_self _ _, (keyMem_iff acc x).not.1 hk⟩
      · refine Or.inr ⟨List.mem_cons_of_mem _ h1, fun hc => h2 ?_⟩
        rw [List.map_append]
        exact List.mem_append_left _ hc

end Chatty

namespace Chatty

/-! ### Claim theorems -/

/-- C1: the claim states that RecentHistory(limit) always returns exactly
the min(limit, totalMessages) most recently added messages in ascending
timestamp order.  The code violates it: the scroll call fetches only a page
of 2 times limit points, so with three stored messages (timestamps 1, 2, 3
in scroll order) and limit 1 the returned entry is the message with
timestamp 2, although the unique most recent stored message has
timestamp 3.  This contradicts the docstring of get_recent_history and its
own comment announcing a scroll through all messages. -/
theorem C1_recent_history_misses_latest :
    get_recent_history [⟨"user", "a", 1⟩, ⟨"user", "b", 2⟩, ⟨"user", "c", 3⟩] 1
      = [⟨"user", "b", 2⟩]
    ∧ (⟨"user", "c", 3⟩ : Msg) ∈ [(⟨"user", "a", 1⟩ : Msg), ⟨"user", "b", 2⟩, ⟨"user", "c", 3⟩]
    ∧ (∀ m ∈ [(⟨"user", "a", 1⟩ : Msg), ⟨"user", "b", 2⟩, ⟨"user", "c", 3⟩], m.timestamp ≤ 3)
    ∧ (⟨"user", "b", 2⟩ : Msg) ≠ ⟨"user", "c", 3⟩ := by decide

/-- C2: a tick of the proactive scheduler reports a send exactly when the
outbound attempt confirmed success, there is a last user message at least
the threshold in the past, and no proactive message was confirmed within
the threshold; the stored last-proactive instant becomes now exactly on a
confirmed send and is unchanged otherwise.  The three concrete scenario
conjuncts replay the spec scenario: last user message 25 hours old and no
prior proactive message sends; one hour after that send nothing is sent;
25 hours after that send it sends again. -/
theorem C2_proactive_tick_policy (lu lp : Option Int) (now : Int) (oc : Option Bool) :
    (((scheduler_tick lu lp now oc).1 = true) ↔
      (oc = some true
        ∧ (∃ l, lu = some l ∧ INACTIVITY_THRESHOLD_HOURS ≤ now - l)
        ∧ (lp = none ∨ ∃ p, lp = some p ∧ INACTIVITY_THRESHOLD_HOURS ≤ now - p)))
    ∧ (scheduler_tick lu lp now oc).2 =
        (if (scheduler_tick lu lp now oc).1 then some now else lp)
    ∧ scheduler_tick (some 0) none 25 (some true) = (true, some 25)
    ∧ scheduler_tick (some 0) (some 25) 26 (some true) = (false, some 25)
    ∧ scheduler_tick (some 0) (some 25) 50 (some true) = (true, some 50) := by
  have main : (((scheduler_tick lu lp now oc).1 = true) ↔
      (oc = some true
        ∧ (∃ l, lu = some l ∧ INACTIVITY_THRESHOLD_HOURS ≤ now - l)
        ∧ (lp = none ∨ ∃ p, lp = some p ∧ INACTIVITY_THRESHOLD_HOURS ≤ now - p)))
      ∧ (scheduler_tick lu lp now oc).2 =
          (if (scheduler_tick lu lp now oc).1 then some now else lp) := by
    rcases lu with _ | l <;> rcases lp with _ | p <;>
      rcases oc with _ | b <;> try cases b
    all_goals
      simp only [scheduler_tick]
    all_goals
      split_ifs <;> simp_all
  exact ⟨main.1, main.2, by decide, by decide, by decide⟩

/-- C2 witness: the state-update conjunct applied at a concrete tick. -/
theorem C2_proactive_tick_policy_witness :
    (scheduler_tick (some 0) none 25 (some true)).2 =
      (if (scheduler_tick (some 0) none 25 (some true)).1 then some 25 else none) :=
  (C2_proactive_tick_policy (some 0) none 25 (some true)).2.1

/-- C3: the tool-calling loop issues at most 5 completion calls, whatever
the backend does; and when the first five responses all request tool calls,
exactly 5 calls are issued (a sixth never happens) and the returned text is
the content of the fifth response, or the generic fallback string when that
content is missing or empty. -/
theorem C3_tool_loop_call_bound (oracle : Nat → ModelResp)
    (reg : List (String × ToolImpl)) (jl : String → Option PyVal)
    (msgs : List ChatMsg) :
    (generate_with_tools oracle reg jl msgs).calls ≤ MAX_TOOL_ITERATIONS
    ∧ ((∀ i, i < MAX_TOOL_ITERATIONS → (oracle i).tool_calls ≠ []) →
        (generate_with_tools oracle reg jl msgs).calls = MAX_TOOL_ITERATIONS
        ∧ (generate_with_tools oracle reg jl msgs).text
            = some (contentOr (oracle 4).content FALLBACK_TEXT)) := by
  constructor
  · have h := gca_calls_le oracle reg jl MAX_TOOL_ITERATIONS 0 msgs none
    simpa [generate_with_tools] using h
  · intro h
    obtain ⟨t, ht⟩ := gca_all_tools oracle reg jl 4 0 msgs none
      (fun i hi1 hi2 => h i (by simpa [MAX_TOOL_ITERATIONS] using hi2))
    unfold generate_with_tools MAX_TOOL_ITERATIONS
    rw [(by norm_num : (5 : Nat) = 4 + 1), ht]
    constructor <;> simp

/-- C3 witness: with a backend that requests a tool call on every response,
exactly 5 completion calls happen and the fallback text is returned. -/
theorem C3_tool_loop_call_bound_witness :
    (generate_with_tools constToolOracle [] noJson []).calls = 5
    ∧ (generate_with_tools constToolOracle [] noJson []).text = some FALLBACK_TEXT := by
  have h := (C3_tool_loop_call_bound constToolOracle [] noJson []).2
    (fun i _ => by simp [constToolOracle, constToolResp])
  exact ⟨h.1, by rw [h.2]; rfl⟩

/-- C4: an unknown tool name yields exactly the result text
Error: Unknown tool: name, fed back into the transcript as a role-tool
entry; an exception raised by a registered tool yields a result text
beginning with Error:; and in both cases the loop appends the results and
continues instead of aborting (the executor is a total function, so no
exception propagates). -/
theorem C4_tool_error_handling :
    (∀ reg name args, lookupTool reg name = none →
        ToolExecutor.execute reg name args = "Error: " ++ ("Unknown tool: " ++ name))
    ∧ (∀ reg name (jl : String → Option PyVal) d,
        lookupTool reg name = none →
        toolResultMsgs reg jl [⟨name, RawArgs.dict d⟩]
          = [⟨"tool", "Error: " ++ ("Unknown tool: " ++ name), []⟩])
    ∧ (∀ reg name impl d e, lookupTool reg name = some impl → impl d = .error e →
        ∃ rest, ToolExecutor.execute reg name (.dict d) = "Error: " ++ rest)
    ∧ (∀ (o : Nat → ModelResp) reg (jl : String → Option PyVal) fuel calls msgs last,
        (o calls).tool_calls ≠ [] →
        generateWithToolsAux o reg jl (fuel + 1) calls msgs last
          = generateWithToolsAux o reg jl fuel (calls + 1)
              (msgs ++ (⟨"assistant", contentOr (o calls).content "", (o calls).tool_calls⟩
                :: toolResultMsgs reg jl (o calls).tool_calls)) (some (o calls))) := by
  refine ⟨?_, ?_, ?_,
    fun o reg jl fuel calls msgs last h => gca_step o reg jl fuel calls msgs last h⟩
  · intro reg name args h
    simp [ToolExecutor.execute, h]
  · intro reg name jl d h
    simp [toolResultMsgs, decodeArguments, ToolExecutor.execute, h]
  · intro reg name impl d e h1 h2
    exact ⟨"Tool " ++ sq ++ name ++ sq ++ " failed: " ++ e,
      by simp [ToolExecutor.execute, h1, h2]⟩

/-- C4 witness: the three error behaviours and the continuation step at
concrete inputs. -/
theorem C4_tool_error_handling_witness :
    ToolExecutor.execute regEcho "nosuch" (.dict []) = "Error: " ++ ("Unknown tool: " ++ "nosuch")
    ∧ toolResultMsgs regEcho noJson [⟨"nosuch", RawArgs.dict []⟩]
        = [⟨"tool", "Error: " ++ ("Unknown tool: " ++ "nosuch"), []⟩]
    ∧ (∃ rest, ToolExecutor.execute regEcho "boomtool" (.dict []) = "Error: " ++ rest)
    ∧ generateWithToolsAux constToolOracle regEcho noJson 1 0 [] none
        = generateWithToolsAux constToolOracle regEcho noJson 0 1
            (⟨"assistant", contentOr (constToolOracle 0).content "", (constToolOracle 0).tool_calls⟩
              :: toolResultMsgs regEcho noJson (constToolOracle 0).tool_calls)
            (some (constToolOracle 0)) := by
  refine ⟨C4_tool_error_handling.1 regEcho "nosuch" (.dict []) rfl,
    C4_tool_error_handling.2.1 regEcho "nosuch" noJson [] rfl,
    C4_tool_error_handling.2.2.1 regEcho "boomtool" (fun _ => Except.error "boom") [] "boom" rfl rfl,
    ?_⟩
  have h := C4_tool_error_handling.2.2.2 constToolOracle regEcho noJson 0 0 [] none (by decide)
  simpa using h

/-- C5: fact extraction never raises, and it returns the empty sequence on
a backend failure, on a missing response content, and whenever the stripped
response text is exactly the sentinel NONE or is empty. -/
theorem C5_extract_facts_none_and_failure :
    (∀ e, extract_facts (.error e) = [])
    ∧ extract_facts (.ok none) = []
    ∧ (∀ c, pyStrip c = "NONE" → extract_facts (.ok (some c)) = [])
    ∧ (∀ c, pyStrip c = "" → extract_facts (.ok (some c)) = []) := by
  refine ⟨fun e => rfl, rfl, fun c h => ?_, fun c h => ?_⟩ <;>
    simp [extract_facts, h]

/-- C5 witness: the empty result at a failing backend, at a padded sentinel
response and at a whitespace-only response. -/
theorem C5_extract_facts_none_and_failure_witness :
    extract_facts (.error "boom") = []
    ∧ extract_facts (.ok (some "  NONE ")) = []
    ∧ extract_facts (.ok (some " \n ")) = [] :=
  ⟨C5_extract_facts_none_and_failure.1 "boom",
   C5_extract_facts_none_and_failure.2.2.1 "  NONE " (by decide),
   C5_extract_facts_none_and_failure.2.2.2 " \n " (by decide)⟩

/-- C6 counterexample: the claim states that every non-empty line without
the marker is accepted as a fact.  On the successful response consisting of
the single line with a leading hash (non-empty, non-sentinel, no marker)
the parser returns the empty list instead of accepting the line. -/
theorem C6_hash_line_rejected :
    extract_facts (.ok (some "# note")) = []
    ∧ pyStrip "# note" ≠ "NONE"
    ∧ pyStrip "# note" ≠ ""
    ∧ pyStrip "# note" = "# note"
    ∧ ("# note" : String) ≠ ""
    ∧ pyStartsWith "# note" "- " = false := by decide

/-- C6 amended: for every successful response that is neither the sentinel
nor empty after stripping, the result has one fact per accepted line of the
stripped response: lines starting with the marker are accepted with the
marker stripped, other non-empty lines are accepted whole unless they start
with a hash, and empty and hash-initial lines are skipped. -/
theorem C6_tolerant_parsing_amended (c : String)
    (h1 : pyStrip c ≠ "NONE") (h2 : pyStrip c ≠ "") :
    extract_facts (.ok (some c)) = (pySplitLines (pyStrip c)).filterMap acceptedFact := by
  simp only [extract_facts]
  rw [if_neg (by tauto), foldl_factStep]
  simp

/-- C6 witness: the amended parsing law evaluated on a mixed response. -/
theorem C6_tolerant_parsing_amended_witness :
    extract_facts (.ok (some "- likes tea\nplain fact\n# heading\n\nend")) =
      ["likes tea", "plain fact", "end"] := by
  have h := C6_tolerant_parsing_amended "- likes tea\nplain fact\n# heading\n\nend"
    (by decide) (by decide)
  rw [h]
  decide

/-- C7: the merged conversation context holds pairwise distinct identity
keys, covers every key occurring in the recent or relevant input, takes
every entry from the recent input or else from the relevant input with a
key absent from the recent input (recency precedence), and is sorted
ascending by timestamp. -/
theorem C7_context_dedup_ordering (recent relevant : List Msg) :
    ((combined_history recent relevant).map msgKey).Nodup
    ∧ (∀ m, m ∈ recent ++ relevant →
        msgKey m ∈ (combined_history recent relevant).map msgKey)
    ∧ (∀ x, x ∈ combined_history recent relevant →
        x ∈ recent ∨ (x ∈ relevant ∧ msgKey x ∉ recent.map msgKey))
    ∧ (combined_history recent relevant).Pairwise (fun a b => a.timestamp ≤ b.timestamp) := by
  have hperm : List.Perm (combined_history recent relevant)
      (dedupAppend (dedupAppend [] recent) relevant) :=
    List.perm_insertionSort _ _
  refine ⟨?_, ?_, ?_, ?_⟩
  · exact (hperm.map msgKey).nodup_iff.2
      (dedupAppend_nodup_keys relevant _ (dedupAppend_nodup_keys recent [] (by simp)))
  · intro m hm
    apply (hperm.map msgKey).mem_iff.2
    rw [dedupAppend_keys_mem, dedupAppend_keys_mem]
    rcases List.mem_append.1 hm with h1 | h1
    · exact Or.inl (Or.inr (List.mem_map_of_mem msgKey h1))
    · exact Or.inr (List.mem_map_of_mem msgKey h1)
  · intro x hx
    have hx2 : x ∈ dedupAppend (dedupAppend [] recent) relevant := hperm.mem_iff.1 hx
    rcases dedupAppend_src relevant _ x hx2 with h1 | ⟨h1, h2⟩
    · rcases dedupAppend_src recent [] x h1 with h3 | ⟨h3, _⟩
      · simp at h3
      · exact Or.inl h3
    · refine Or.inr ⟨h1, fun hc => h2 ?_⟩
      rw [dedupAppend_keys_mem]
      exact Or.inr hc
  · exact List.sorted_insertionSort _ _

/-- C7 witness: the duplicate-free key property at a concrete pair of
result sets sharing one identity key. -/
theorem C7_context_dedup_ordering_witness :
    ((combined_history [⟨"user", "a", 1⟩, ⟨"assistant", "b", 2⟩]
        [⟨"user", "a", 1⟩, ⟨"user", "c", 0⟩]).map msgKey).Nodup :=
  (C7_context_dedup_ordering [⟨"user", "a", 1⟩, ⟨"assistant", "b", 2⟩]
    [⟨"user", "a", 1⟩, ⟨"user", "c", 0⟩]).1

set_option maxRecDepth 40000 in
/-- C8: the claim states LastUserMessageTime returns the maximum timestamp
over all stored user messages.  The code violates it: the filtered scroll
is capped at a page of 100 points, so on a store of 101 user messages with
timestamps 0 to 100 in scroll order it returns 99 although a stored user
message has timestamp 100. -/
theorem C8_last_user_time_misses_latest :
    get_last_user_message_time store101 = some 99
    ∧ (⟨"user", "m", 100⟩ : Msg) ∈ store101
    ∧ (∀ m ∈ store101, m.role = "user") := by decide

/-- C9: a message whose sender differs from the configured allowed user id
produces no outbound send and leaves the memory state unchanged. -/
theorem C9_unauthorized_noop (allowed sender : Int) (text : Option String)
    (mem : MemoryState) (relevantHistory : List Msg)
    (gen : List Msg → String → Except String String)
    (factsBackend : Except String (Option String)) (nowU nowA : Nat)
    (h : sender ≠ allowed) :
    handle_message allowed sender text mem relevantHistory gen factsBackend nowU nowA
      = (mem, []) := by
  cases text with
  | none => rfl
  | some t => simp [handle_message, h]

/-- C9 witness: an unauthorized concrete sender with a live generation
backend touches nothing. -/
theorem C9_unauthorized_noop_witness :
    handle_message 2 1 (some "hi") ⟨[], []⟩ [] (fun _ _ => .ok "resp") (.error "x") 0 1
      = (⟨[], []⟩, []) :=
  C9_unauthorized_noop 2 1 (some "hi") ⟨[], []⟩ [] (fun _ _ => .ok "resp") (.error "x") 0 1
    (by decide)

/-- C10: when the arguments of a requested tool call arrive as a string the
JSON decoder rejects, they are replaced by the empty mapping, the transcript
entry for the call holds the executor result on that empty mapping, and a
registered tool is still executed with no arguments; the turn is never
aborted (decoding and execution are total functions here). -/
theorem C10_malformed_args_empty_dict (jl : String → Option PyVal) (s : String)
    (h : jl s = none) :
    decodeArguments jl (RawArgs.str s) = PyVal.dict []
    ∧ (∀ reg name, toolResultMsgs reg jl [⟨name, RawArgs.str s⟩]
        = [⟨"tool", ToolExecutor.execute reg name (PyVal.dict []), []⟩])
    ∧ (∀ reg name impl, lookupTool reg name = some impl →
        ToolExecutor.execute reg name (decodeArguments jl (RawArgs.str s))
          = match impl [] with
            | .ok r => r
            | .error e => "Error: " ++ ("Tool " ++ sq ++ name ++ sq ++ " failed: " ++ e)) := by
  have h1 : decodeArguments jl (RawArgs.str s) = PyVal.dict [] := by
    simp [decodeArguments, h]
  refine ⟨h1, ?_, ?_⟩
  · intro reg name
    simp [toolResultMsgs, h1]
  · intro reg name impl hl
    rw [h1]
    simp only [ToolExecutor.execute, hl]

/-- C10 witness: a decode failure at a concrete string still runs the
registered tool with no arguments. -/
theorem C10_malformed_args_empty_dict_witness :
    decodeArguments noJson (RawArgs.str "notjson") = PyVal.dict []
    ∧ toolResultMsgs regOk noJson [⟨"mytool", RawArgs.str "notjson"⟩]
        = [⟨"tool", ToolExecutor.execute regOk "mytool" (PyVal.dict []), []⟩]
    ∧ ToolExecutor.execute regOk "mytool" (decodeArguments noJson (RawArgs.str "notjson")) = "ran" := by
  have h := C10_malformed_args_empty_dict noJson "notjson" rfl
  refine ⟨h.1, h.2.1 regOk "mytool", ?_⟩
  have h2 := h.2.2 regOk "mytool" (fun _ => Except.ok "ran") rfl
  rw [h2]

end Chatty
